import Mathlib

/-!
Shallow embedding of the element-addressing core of the mcp-puppeteer
repository: the reference-ID codec (parseElementRefId), the accessibility
tree simplifier (simplifyNode / formatAccessibilityTreeToYaml), and the
cross-frame element resolver (findElementByRefId / findElementInPage /
getAllFrameTrees).

JavaScript conventions used by the embedding:
- a missing or empty string field (undefined, null, "") is modelled as the
  empty string "" — the source only ever tests these fields for truthiness,
  where all three behave identically;
- a null/undefined object is modelled as Option.none;
- a thrown exception is modelled with Except.error carrying the message;
- parseInt on a digit run is modelled as the exact decimal value.
-/

/-! ## Reference codec (parseElementRefId, src/src/cli.js lines 59-78) -/

/-- Decoded form of an element reference ID: frameIndex is absent for the
main frame. -/
structure ReferenceId where
  frameIndex : Option Nat
  snapshotIndex : Nat
  elementIndex : Nat
deriving Repr, DecidableEq

/-- Decimal value of a digit run, as computed by parseInt(s, 10). -/
def digitsVal (l : List Char) : Nat :=
  l.foldl (fun a c => a * 10 + (c.toNat - 48)) 0

/-- A nonempty run of decimal digits: what the regex group (\d+) captures. -/
def digitsNE (l : List Char) : Bool :=
  !l.isEmpty && l.all Char.isDigit

/-- Matcher for the anchored regex f(\d+)s(\d+)e(\d+) over the whole input.
The greedy (\d+) followed by a non-digit literal is exactly a maximal digit
run, hence takeWhile/dropWhile. -/
def matchFSE (cs : List Char) : Option (Nat × Nat × Nat) :=
  match cs with
  | [] => none
  | c0 :: r0 =>
    if c0 = 'f' then
      let d1 := r0.takeWhile Char.isDigit
      match r0.dropWhile Char.isDigit with
      | c1 :: r1 =>
        if c1 = 's' then
          let d2 := r1.takeWhile Char.isDigit
          match r1.dropWhile Char.isDigit with
          | c2 :: r2 =>
            if c2 = 'e' then
              let d3 := r2.takeWhile Char.isDigit
              match r2.dropWhile Char.isDigit with
              | [] =>
                if d1.isEmpty || d2.isEmpty || d3.isEmpty then none
                else some (digitsVal d1, digitsVal d2, digitsVal d3)
              | _ :: _ => none
            else none
          | [] => none
        else none
      | [] => none
    else none

/-- Matcher for the anchored regex s(\d+)e(\d+) over the whole input. -/
def matchSE (cs : List Char) : Option (Nat × Nat) :=
  match cs with
  | [] => none
  | c0 :: r0 =>
    if c0 = 's' then
      let d1 := r0.takeWhile Char.isDigit
      match r0.dropWhile Char.isDigit with
      | c1 :: r1 =>
        if c1 = 'e' then
          let d2 := r1.takeWhile Char.isDigit
          match r1.dropWhile Char.isDigit with
          | [] =>
            if d1.isEmpty || d2.isEmpty then none
            else some (digitsVal d1, digitsVal d2)
          | _ :: _ => none
        else none
      | [] => none
    else none

/-- parseElementRefId from src/src/cli.js: tries the frame grammar first,
then the main-frame grammar, and otherwise throws. -/
def parseElementRefId (refId : String) : Except String ReferenceId :=
  match matchFSE refId.data with
  | some (fi, si, ei) => .ok ⟨some fi, si, ei⟩
  | none =>
    match matchSE refId.data with
    | some (si, ei) => .ok ⟨none, si, ei⟩
    | none => .error ("Invalid element reference ID format: " ++ refId)

/-- Spec-side statement of the frame reference grammar f(\d+)s(\d+)e(\d+). -/
def isFSE (cs : List Char) : Prop :=
  ∃ a b c : List Char,
    digitsNE a = true ∧ digitsNE b = true ∧ digitsNE c = true ∧
    cs = 'f' :: (a ++ 's' :: (b ++ 'e' :: c))

/-- Spec-side statement of the main-frame reference grammar s(\d+)e(\d+). -/
def isSE (cs : List Char) : Prop :=
  ∃ b c : List Char,
    digitsNE b = true ∧ digitsNE c = true ∧
    cs = 's' :: (b ++ 'e' :: c)

/-- Fuel-driven decimal printer; fuel strictly exceeding the value suffices. -/
def natToDecAux : Nat → Nat → List Char
  | 0, _ => []
  | fuel + 1, n =>
    if n < 10 then [Char.ofNat (48 + n)]
    else natToDecAux fuel (n / 10) ++ [Char.ofNat (48 + n % 10)]

/-- Decimal digit list of a natural number, most significant digit first. -/
def natToDec (n : Nat) : List Char := natToDecAux (n + 1) n

/-- Modelled from the spec: the ReferenceCodec encode operation is not
present as a standalone function under src (IDs are built inline); per the
spec it emits f-frameIndex-s-snapshotIndex-e-elementIndex when frameIndex is
present and s-snapshotIndex-e-elementIndex otherwise. -/
def encodeRefId : ReferenceId → String
  | ⟨some fi, si, ei⟩ =>
    String.mk ('f' :: (natToDec fi ++ 's' :: (natToDec si ++ 'e' :: natToDec ei)))
  | ⟨none, si, ei⟩ =>
    String.mk ('s' :: (natToDec si ++ 'e' :: natToDec ei))

/-! ## Raw and simplified accessibility trees -/

/-- Raw accessibility node as returned by the host accessibility API.
Fields the simplifier and locator read: role, name, value, children. -/
inductive RawNode : Type where
  | node (role name value : String) (children : List RawNode)
deriving Repr

def RawNode.role : RawNode → String
  | .node r _ _ _ => r

def RawNode.name : RawNode → String
  | .node _ n _ _ => n

def RawNode.value : RawNode → String
  | .node _ _ v _ => v

def RawNode.children : RawNode → List RawNode
  | .node _ _ _ cs => cs

/-- Simplified node emitted by the tree simplifier. An empty name or value
stands for an omitted field, mirroring the conditional assignment in the
source. -/
inductive SimpNode : Type where
  | mk (id role name value : String) (children : List SimpNode)
deriving Repr

def SimpNode.id : SimpNode → String
  | .mk i _ _ _ _ => i

def SimpNode.role : SimpNode → String
  | .mk _ r _ _ _ => r

def SimpNode.name : SimpNode → String
  | .mk _ _ n _ _ => n

def SimpNode.value : SimpNode → String
  | .mk _ _ _ v _ => v

def SimpNode.children : SimpNode → List SimpNode
  | .mk _ _ _ _ cs => cs

/-- Structural-role allowlist from src/utils/yamlFormatter.js. -/
def LAYOUT_ROLES : List String :=
  ["generic container", "group", "paragraph", "list", "listitem"]

mutual
/-- simplifyNode from src/utils/yamlFormatter.js: drops a node (returning
null) when it has no role and no name and its role is not a layout role;
otherwise emits id = pfx ++ "e" ++ (index+1) and simplifies the children
with the node's own id as their prefix. -/
def simplifyNode : RawNode → String → Nat → Option SimpNode
  | .node role nm vl cs, pfx, index =>
    if role == "" && nm == "" && !(LAYOUT_ROLES.contains role) then none
    else
      let elementId := pfx ++ "e" ++ toString (index + 1)
      some (SimpNode.mk elementId (if role == "" then "unknown" else role)
        nm vl (simplifyChildren cs elementId 0))

/-- Children loop of simplifyNode: map with the raw child index, then
filter(Boolean), fused into one pass. -/
def simplifyChildren : List RawNode → String → Nat → List SimpNode
  | [], _, _ => []
  | c :: cs, pfx, i =>
    match simplifyNode c pfx i with
    | some s => s :: simplifyChildren cs pfx (i + 1)
    | none => simplifyChildren cs pfx (i + 1)
end

/-- formatAccessibilityTreeToYaml from src/utils/yamlFormatter.js. The
external yaml.dump library call is a parameter; the function returns the
empty string for a falsy tree or a fully dropped root, and wraps a dump
failure in a SerializationFailure-style message. -/
def formatAccessibilityTreeToYaml (dump : SimpNode → Except String String)
    (accessibilityTree : Option RawNode) (framePfx : String) :
    Except String String :=
  match accessibilityTree with
  | none => .ok ""
  | some t =>
    match simplifyNode t framePfx 0 with
    | none => .ok ""
    | some s =>
      match dump s with
      | .ok y => .ok y
      | .error e => .error ("YAML formatting failed: " ++ e)

/-! ## Element locator (src/src/cli.js lines 87-196) -/

/-- ASCII lower-casing of one character (JS toLowerCase on the role and
role-hint strings, which are ASCII). -/
def charToLower (c : Char) : Char :=
  if 65 ≤ c.toNat && c.toNat ≤ 90 then Char.ofNat (c.toNat + 32) else c

/-- ASCII lower-casing of a string (JS toLowerCase). -/
def strToLower (s : String) : String := String.mk (s.data.map charToLower)

/-- Interactive-role set from isInteractiveElement in src/src/cli.js. -/
def interactiveRoles : List String :=
  ["button", "link", "checkbox", "combobox", "menuitem",
   "menuitemcheckbox", "menuitemradio", "option", "radio",
   "scrollbar", "searchbox", "slider", "spinbutton", "switch",
   "tab", "textbox", "treeitem"]

/-- isInteractiveElement from src/src/cli.js. -/
def isInteractiveElement (node : RawNode) : Bool :=
  node.role != "" && interactiveRoles.contains (strToLower node.role)

mutual
/-- Inner traverse closure of findElementByRefId: with a truthy targetRole
it matches the role case-insensitively, with a falsy targetRole it matches
any interactive element; children are visited in order (pre-order). -/
def traverseNode (targetRole : String) : RawNode → Option RawNode
  | .node role nm vl cs =>
    if targetRole != "" && (strToLower role == strToLower targetRole) then
      some (.node role nm vl cs)
    else if targetRole == "" && isInteractiveElement (.node role nm vl cs) then
      some (.node role nm vl cs)
    else traverseChildren targetRole cs

/-- Child loop of the traverse closure: first non-null result wins. -/
def traverseChildren (targetRole : String) : List RawNode → Option RawNode
  | [] => none
  | c :: cs =>
    match traverseNode targetRole c with
    | some r => some r
    | none => traverseChildren targetRole cs
end

/-- findElementByRefId from src/src/cli.js: the refId argument is used only
in the initial null guard. A falsy targetRole (the JS default null) is the
empty string. -/
def findElementByRefId (tree : Option RawNode) (refId : String)
    (targetRole : String) : Option RawNode :=
  match tree with
  | none => none
  | some t => if refId == "" then none else traverseNode targetRole t

/-- Two-phase matching of findElementInPage (src/src/cli.js lines 163-169),
with the role hint as a parameter; the source instantiates it at "button". -/
def resolveElement (tree : RawNode) (refId : String) (roleHint : String) :
    Option RawNode :=
  match findElementByRefId (some tree) refId roleHint with
  | some el => some el
  | none => findElementByRefId (some tree) refId ""

mutual
/-- Pre-order listing of a tree's nodes (spec-side reference order). -/
def preorder : RawNode → List RawNode
  | .node role nm vl cs => .node role nm vl cs :: preorderList cs

/-- Pre-order listing of a forest's nodes. -/
def preorderList : List RawNode → List RawNode
  | [] => []
  | c :: cs => preorder c ++ preorderList cs
end

/-- A live frame: its accessibility snapshot either throws (error), returns
null (ok none), or returns a raw tree. The fid tag distinguishes frames. -/
structure Frame where
  fid : Nat
  snapshot : Except String (Option RawNode)

/-- A page: the frames() enumeration plus the mainFrame() accessor. -/
structure Page where
  frames : List Frame
  mainFrame : Frame

/-- Body of findElementInPage after the target frame is chosen: wait for
readiness (the timeout is swallowed by .catch and has no observable
effect), capture the frame's tree, null tree gives null, a thrown capture
error is caught and gives null, then two-phase matching with hint
"button". -/
def searchFrameTree (targetFrame : Frame) (refId : String) :
    Option (Frame × RawNode) :=
  match targetFrame.snapshot with
  | .error _ => none
  | .ok none => none
  | .ok (some tree) =>
    match resolveElement tree refId "button" with
    | some el => some (targetFrame, el)
    | none => none

/-- findElementInPage from src/src/cli.js lines 139-176: falsy page or
refId gives null before parsing; a parse failure is thrown (outside the
try block, so it propagates); an out-of-range frameIndex falls back to
page.mainFrame(); errors inside the try block are caught and give null. -/
def findElementInPage (page : Option Page) (refId : String) :
    Except String (Option (Frame × RawNode)) :=
  match page with
  | none => .ok none
  | some pg =>
    if refId == "" then .ok none
    else
      match parseElementRefId refId with
      | .error e => .error e
      | .ok ref =>
        let targetFrame :=
          match ref.frameIndex with
          | some fi => pg.frames.getD fi pg.mainFrame
          | none => pg.mainFrame
        .ok (searchFrameTree targetFrame refId)

/-- Event-loop model of Promise.allSettled: tasks complete in the order
given by sched, each writing its settled outcome into its own slot of the
results array. -/
def settleInto {α : Type} (tasks : List α) :
    List Nat → List (Option α) → List (Option α)
  | [], acc => acc
  | i :: rest, acc =>
    match tasks[i]? with
    | some t => settleInto tasks rest (acc.set i (some t))
    | none => settleInto tasks rest acc

/-- Settled-results array of Promise.allSettled under completion order
sched, starting from all slots pending. -/
def allSettled {α : Type} (tasks : List α) (sched : List Nat) :
    List (Option α) :=
  settleInto tasks sched (List.replicate tasks.length none)

/-- getAllFrameTrees from src/src/cli.js lines 183-196: snapshot every
frame concurrently (completion order sched), keep the fulfilled results,
and drop frames whose tree is null. -/
def getAllFrameTrees (page : Option Page) (sched : List Nat) :
    List (Frame × RawNode) :=
  match page with
  | none => []
  | some pg =>
    let tasks : List (Except String (Frame × Option RawNode)) :=
      pg.frames.map fun frame => frame.snapshot.map fun tree => (frame, tree)
    let settled := (allSettled tasks sched).filterMap id
    (settled.filterMap fun r =>
      match r with
      | .ok v => some v
      | .error _ => none).filterMap fun ft =>
      match ft.2 with
      | some tree => some (ft.1, tree)
      | none => none

/-! ## Helper lemmas: digit runs and the anchored grammars -/

theorem takeWhile_run {p : Char → Bool} (a : List Char) (c : Char) (r : List Char)
    (ha : a.all p = true) (hc : p c = false) :
    (a ++ c :: r).takeWhile p = a := by
  induction a with
  | nil => simp [List.takeWhile_cons, hc]
  | cons x xs ih =>
    simp only [List.all_cons, Bool.and_eq_true] at ha
    simp [List.takeWhile_cons, ha.1, ih ha.2]

theorem dropWhile_run {p : Char → Bool} (a : List Char) (c : Char) (r : List Char)
    (ha : a.all p = true) (hc : p c = false) :
    (a ++ c :: r).dropWhile p = c :: r := by
  induction a with
  | nil => simp [List.dropWhile_cons, hc]
  | cons x xs ih =>
    simp only [List.all_cons, Bool.and_eq_true] at ha
    simp [List.dropWhile_cons, ha.1, ih ha.2]

theorem takeWhile_of_all {p : Char → Bool} (l : List Char) (hl : l.all p = true) :
    l.takeWhile p = l := by
  induction l with
  | nil => rfl
  | cons x xs ih =>
    simp only [List.all_cons, Bool.and_eq_true] at hl
    simp [List.takeWhile_cons, hl.1, ih hl.2]

theorem dropWhile_of_all {p : Char → Bool} (l : List Char) (hl : l.all p = true) :
    l.dropWhile p = [] := by
  induction l with
  | nil => rfl
  | cons x xs ih =>
    simp only [List.all_cons, Bool.and_eq_true] at hl
    simp [List.dropWhile_cons, hl.1, ih hl.2]

theorem digitsNE_not_isEmpty {l : List Char} (h : digitsNE l = true) :
    l.isEmpty = false := by
  simp only [digitsNE, Bool.and_eq_true, Bool.not_eq_true'] at h
  exact h.1

theorem digitsNE_all {l : List Char} (h : digitsNE l = true) :
    l.all Char.isDigit = true := by
  simp only [digitsNE, Bool.and_eq_true] at h
  exact h.2

theorem matchFSE_of_form {a b c : List Char}
    (hA : digitsNE a = true) (hB : digitsNE b = true) (hC : digitsNE c = true) :
    matchFSE ('f' :: (a ++ 's' :: (b ++ 'e' :: c))) =
      some (digitsVal a, digitsVal b, digitsVal c) := by
  have hs : Char.isDigit 's' = false := by decide
  have he : Char.isDigit 'e' = false := by decide
  simp only [matchFSE, if_pos rfl]
  rw [takeWhile_run a 's' _ (digitsNE_all hA) hs,
    dropWhile_run a 's' _ (digitsNE_all hA) hs]
  simp only [if_pos rfl]
  rw [takeWhile_run b 'e' _ (digitsNE_all hB) he,
    dropWhile_run b 'e' _ (digitsNE_all hB) he]
  simp only [if_pos rfl]
  rw [takeWhile_of_all c (digitsNE_all hC), dropWhile_of_all c (digitsNE_all hC)]
  simp [digitsNE_not_isEmpty hA, digitsNE_not_isEmpty hB, digitsNE_not_isEmpty hC]

theorem matchSE_of_form {b c : List Char}
    (hB : digitsNE b = true) (hC : digitsNE c = true) :
    matchSE ('s' :: (b ++ 'e' :: c)) = some (digitsVal b, digitsVal c) := by
  have he : Char.isDigit 'e' = false := by decide
  simp only [matchSE, if_pos rfl]
  rw [takeWhile_run b 'e' _ (digitsNE_all hB) he,
    dropWhile_run b 'e' _ (digitsNE_all hB) he]
  simp only [if_pos rfl]
  rw [takeWhile_of_all c (digitsNE_all hC), dropWhile_of_all c (digitsNE_all hC)]
  simp [digitsNE_not_isEmpty hB, digitsNE_not_isEmpty hC]

theorem form_of_matchFSE {cs : List Char} {v : Nat × Nat × Nat}
    (h : matchFSE cs = some v) :
    ∃ a b c : List Char,
      digitsNE a = true ∧ digitsNE b = true ∧ digitsNE c = true ∧
      cs = 'f' :: (a ++ 's' :: (b ++ 'e' :: c)) ∧
      v = (digitsVal a, digitsVal b, digitsVal c) := by
  match cs with
  | [] => simp [matchFSE] at h
  | c0 :: r0 =>
    simp only [matchFSE] at h
    split at h
    case isFalse => exact absurd h (by simp)
    case isTrue hc0 =>
      split at h
      case h_2 => exact absurd h (by simp)
      case h_1 c1 r1 hd1 =>
        split at h
        case isFalse => exact absurd h (by simp)
        case isTrue hc1 =>
          split at h
          case h_2 => exact absurd h (by simp)
          case h_1 c2 r2 hd2 =>
            split at h
            case isFalse => exact absurd h (by simp)
            case isTrue hc2 =>
              split at h
              case h_2 => exact absurd h (by simp)
              case h_1 hd3 =>
                split at h
                case isTrue => exact absurd h (by simp)
                case isFalse hne =>
                  simp only [Option.some.injEq] at h
                  simp only [Bool.or_eq_true, not_or, Bool.not_eq_true] at hne
                  refine ⟨r0.takeWhile Char.isDigit, r1.takeWhile Char.isDigit,
                    r2.takeWhile Char.isDigit, ?_, ?_, ?_, ?_, ?_⟩
                  · simp [digitsNE, hne.1.1, List.all_takeWhile]
                  · simp [digitsNE, hne.1.2, List.all_takeWhile]
                  · simp [digitsNE, hne.2, List.all_takeWhile]
                  · subst hc0 hc1 hc2
                    have hr2 := List.takeWhile_append_dropWhile Char.isDigit r2
                    rw [hd3, List.append_nil] at hr2
                    have hr1 := List.takeWhile_append_dropWhile Char.isDigit r1
                    rw [hd2] at hr1
                    have hr0 := List.takeWhile_append_dropWhile Char.isDigit r0
                    rw [hd1] at hr0
                    rw [hr2, hr1, hr0]
                  · exact h.symm

theorem form_of_matchSE {cs : List Char} {v : Nat × Nat}
    (h : matchSE cs = some v) :
    ∃ b c : List Char,
      digitsNE b = true ∧ digitsNE c = true ∧
      cs = 's' :: (b ++ 'e' :: c) ∧
      v = (digitsVal b, digitsVal c) := by
  match cs with
  | [] => simp [matchSE] at h
  | c0 :: r0 =>
    simp only [matchSE] at h
    split at h
    case isFalse => exact absurd h (by simp)
    case isTrue hc0 =>
      split at h
      case h_2 => exact absurd h (by simp)
      case h_1 c1 r1 hd1 =>
        split at h
        case isFalse => exact absurd h (by simp)
        case isTrue hc1 =>
          split at h
          case h_2 => exact absurd h (by simp)
          case h_1 hd2 =>
            split at h
            case isTrue => exact absurd h (by simp)
            case isFalse hne =>
              simp only [Option.some.injEq] at h
              simp only [Bool.or_eq_true, not_or, Bool.not_eq_true] at hne
              refine ⟨r0.takeWhile Char.isDigit, r1.takeWhile Char.isDigit,
                ?_, ?_, ?_, ?_⟩
              · simp [digitsNE, hne.1, List.all_takeWhile]
              · simp [digitsNE, hne.2, List.all_takeWhile]
              · subst hc0 hc1
                have hr1 := List.takeWhile_append_dropWhile Char.isDigit r1
                rw [hd2, List.append_nil] at hr1
                have hr0 := List.takeWhile_append_dropWhile Char.isDigit r0
                rw [hd1] at hr0
                rw [hr1, hr0]
              · exact h.symm

theorem matchFSE_s_head (rest : List Char) : matchFSE ('s' :: rest) = none := by
  simp [matchFSE]

theorem parseElementRefId_of_fse {s : String} {a b c : List Char}
    (hA : digitsNE a = true) (hB : digitsNE b = true) (hC : digitsNE c = true)
    (hcs : s.data = 'f' :: (a ++ 's' :: (b ++ 'e' :: c))) :
    parseElementRefId s = .ok ⟨some (digitsVal a), digitsVal b, digitsVal c⟩ := by
  simp only [parseElementRefId, hcs, matchFSE_of_form hA hB hC]

theorem parseElementRefId_of_se {s : String} {b c : List Char}
    (hB : digitsNE b = true) (hC : digitsNE c = true)
    (hcs : s.data = 's' :: (b ++ 'e' :: c)) :
    parseElementRefId s = .ok ⟨none, digitsVal b, digitsVal c⟩ := by
  simp only [parseElementRefId, hcs, matchFSE_s_head, matchSE_of_form hB hC]

theorem parseElementRefId_error_of_no_match {s : String}
    (hno : ¬ (isFSE s.data ∨ isSE s.data)) :
    parseElementRefId s = .error ("Invalid element reference ID format: " ++ s) := by
  unfold parseElementRefId
  split
  case h_1 v fi si ei heq =>
    obtain ⟨a, b, c, hA, hB, hC, hcs, _⟩ := form_of_matchFSE heq
    exact absurd (Or.inl ⟨a, b, c, hA, hB, hC, hcs⟩) hno
  case h_2 =>
    split
    case h_1 v si ei heq =>
      obtain ⟨b, c, hB, hC, hcs, _⟩ := form_of_matchSE heq
      exact absurd (Or.inr ⟨b, c, hB, hC, hcs⟩) hno
    case h_2 => rfl

/-- C5: parseElementRefId succeeds exactly on the two anchored grammars
f(\d+)s(\d+)e(\d+) and s(\d+)e(\d+), returning the parsed frameIndex (when
present), snapshotIndex and elementIndex; every other string — including
"invalid", "s1" and "f0s1" — fails with the InvalidReferenceFormat error. -/
theorem claim_C5_decode_grammar :
    (∀ s : String,
      (∃ r, parseElementRefId s = .ok r) ↔ (isFSE s.data ∨ isSE s.data)) ∧
    (∀ (s : String) (a b c : List Char),
      digitsNE a = true → digitsNE b = true → digitsNE c = true →
      s.data = 'f' :: (a ++ 's' :: (b ++ 'e' :: c)) →
      parseElementRefId s = .ok ⟨some (digitsVal a), digitsVal b, digitsVal c⟩) ∧
    (∀ (s : String) (b c : List Char),
      digitsNE b = true → digitsNE c = true →
      s.data = 's' :: (b ++ 'e' :: c) →
      parseElementRefId s = .ok ⟨none, digitsVal b, digitsVal c⟩) ∧
    (∀ s : String, ¬ (isFSE s.data ∨ isSE s.data) →
      parseElementRefId s = .error ("Invalid element reference ID format: " ++ s)) ∧
    parseElementRefId "invalid" = .error "Invalid element reference ID format: invalid" ∧
    parseElementRefId "s1" = .error "Invalid element reference ID format: s1" ∧
    parseElementRefId "f0s1" = .error "Invalid element reference ID format: f0s1" := by
  have hFSE : ∀ (s : String) (a b c : List Char),
      digitsNE a = true → digitsNE b = true → digitsNE c = true →
      s.data = 'f' :: (a ++ 's' :: (b ++ 'e' :: c)) →
      parseElementRefId s = .ok ⟨some (digitsVal a), digitsVal b, digitsVal c⟩ :=
    fun _ _ _ _ hA hB hC hcs => parseElementRefId_of_fse hA hB hC hcs
  have hSE : ∀ (s : String) (b c : List Char),
      digitsNE b = true → digitsNE c = true →
      s.data = 's' :: (b ++ 'e' :: c) →
      parseElementRefId s = .ok ⟨none, digitsVal b, digitsVal c⟩ :=
    fun _ _ _ hB hC hcs => parseElementRefId_of_se hB hC hcs
  refine ⟨?_, hFSE, hSE, ?_, rfl, rfl, rfl⟩
  · intro s
    constructor
    · rintro ⟨r, hr⟩
      unfold parseElementRefId at hr
      split at hr
      case h_1 v fi si ei heq =>
        obtain ⟨a, b, c, hA, hB, hC, hcs, _⟩ := form_of_matchFSE heq
        exact Or.inl ⟨a, b, c, hA, hB, hC, hcs⟩
      case h_2 =>
        split at hr
        case h_1 v si ei heq =>
          obtain ⟨b, c, hB, hC, hcs, _⟩ := form_of_matchSE heq
          exact Or.inr ⟨b, c, hB, hC, hcs⟩
        case h_2 => exact absurd hr (by simp)
    · rintro (⟨a, b, c, hA, hB, hC, hcs⟩ | ⟨b, c, hB, hC, hcs⟩)
      · exact ⟨_, hFSE s a b c hA hB hC hcs⟩
      · exact ⟨_, hSE s b c hB hC hcs⟩
  · exact fun s hno => parseElementRefId_error_of_no_match hno

/-- Witness for C5: the grammar conjuncts applied at the concrete reference
ID f0s1e2, and a concrete rejected string. -/
theorem claim_C5_decode_grammar_witness :
    parseElementRefId "f0s1e2" = .ok ⟨some 0, 1, 2⟩ ∧
    parseElementRefId "s1e2" = .ok ⟨none, 1, 2⟩ := by
  constructor
  · exact claim_C5_decode_grammar.2.1 "f0s1e2" ['0'] ['1'] ['2']
      (by decide) (by decide) (by decide) rfl
  · exact claim_C5_decode_grammar.2.2.1 "s1e2" ['1'] ['2']
      (by decide) (by decide) rfl

/-! ## Helper lemmas: decimal printing for the spec-modelled encoder -/

theorem digitChar_isDigit {d : Nat} (h : d < 10) :
    (Char.ofNat (48 + d)).isDigit = true := by
  interval_cases d <;> decide

theorem digitChar_val {d : Nat} (h : d < 10) :
    (Char.ofNat (48 + d)).toNat - 48 = d := by
  interval_cases d <;> decide

theorem digitsVal_append_single (xs : List Char) (c : Char) :
    digitsVal (xs ++ [c]) = digitsVal xs * 10 + (c.toNat - 48) := by
  simp [digitsVal, List.foldl_append]

theorem natToDecAux_spec :
    ∀ (fuel n : Nat), n < fuel →
    (natToDecAux fuel n).all Char.isDigit = true ∧
    natToDecAux fuel n ≠ [] ∧
    digitsVal (natToDecAux fuel n) = n := by
  intro fuel
  induction fuel with
  | zero => intro n h; omega
  | succ f ih =>
    intro n h
    by_cases h10 : n < 10
    · refine ⟨?_, ?_, ?_⟩
      · simp [natToDecAux, h10, digitChar_isDigit h10]
      · simp [natToDecAux, h10]
      · simp [natToDecAux, h10, digitsVal, digitChar_val h10]
    · have hn : 0 < n := by omega
      have hdiv : n / 10 < f := by
        have := Nat.div_lt_self hn (by omega : 1 < 10)
        omega
      obtain ⟨iha, ihne, ihval⟩ := ih (n / 10) hdiv
      have hmod : n % 10 < 10 := Nat.mod_lt n (by omega)
      refine ⟨?_, ?_, ?_⟩
      · simp [natToDecAux, h10, List.all_append, iha, digitChar_isDigit hmod]
      · simp [natToDecAux, h10]
      · rw [show natToDecAux (f + 1) n =
            natToDecAux f (n / 10) ++ [Char.ofNat (48 + n % 10)] by
              simp [natToDecAux, h10]]
        rw [digitsVal_append_single, ihval, digitChar_val hmod]
        omega

theorem digitsNE_natToDec (n : Nat) : digitsNE (natToDec n) = true := by
  obtain ⟨ha, hne, _⟩ := natToDecAux_spec (n + 1) n (by omega)
  simp only [digitsNE, natToDec, Bool.and_eq_true, Bool.not_eq_true', ha,
    and_true]
  simpa using hne

theorem digitsVal_natToDec (n : Nat) : digitsVal (natToDec n) = n :=
  (natToDecAux_spec (n + 1) n (by omega)).2.2

/-- C6: decoding the spec-modelled encoding of any valid reference tuple
returns exactly that tuple. -/
theorem claim_C6_roundtrip :
    ∀ (fi : Option Nat) (si ei : Nat), 0 < si → 0 < ei →
    parseElementRefId (encodeRefId ⟨fi, si, ei⟩) = .ok ⟨fi, si, ei⟩ := by
  intro fi si ei _ _
  cases fi with
  | none =>
    have h := parseElementRefId_of_se (s := encodeRefId ⟨none, si, ei⟩)
      (digitsNE_natToDec si) (digitsNE_natToDec ei) rfl
    rwa [digitsVal_natToDec, digitsVal_natToDec] at h
  | some fv =>
    have h := parseElementRefId_of_fse (s := encodeRefId ⟨some fv, si, ei⟩)
      (digitsNE_natToDec fv) (digitsNE_natToDec si) (digitsNE_natToDec ei) rfl
    rwa [digitsVal_natToDec, digitsVal_natToDec, digitsVal_natToDec] at h

/-- Witness for C6: the round trip at the concrete tuple (frame 0,
snapshot 1, element 2). -/
theorem claim_C6_roundtrip_witness :
    parseElementRefId (encodeRefId ⟨some 0, 1, 2⟩) = .ok ⟨some 0, 1, 2⟩ :=
  claim_C6_roundtrip (some 0) 1 2 (by decide) (by decide)

/-! ## Claims about the tree simplifier -/

/-- C2 counterexample: the middle node (no role, no name) is dropped, its
descendant button is individually retainable, yet the simplified root has
no children at all — the dropped node's subtree is discarded wholesale,
not reparented into the nearest retained ancestor. -/
theorem claim_C2_counterexample :
    simplifyNode (.node "" "" "" [.node "button" "b" "" []]) "s1e1" 0 = none ∧
    simplifyNode (.node "button" "b" "" []) "s1e1" 0 =
      some (SimpNode.mk "s1e1e1" "button" "b" "" []) ∧
    simplifyNode (.node "WebArea" "Doc" ""
        [.node "" "" "" [.node "button" "b" "" []]]) "s1" 0 =
      some (SimpNode.mk "s1e1" "WebArea" "Doc" "" []) :=
  ⟨rfl, rfl, rfl⟩

/-- C2 (amended): a node is dropped exactly when it has no role, no name,
and its role is not in the structural allowlist; but a dropped node is
discarded together with its entire subtree — it contributes nothing to its
parent's simplified child list, and no descendant is reparented. -/
theorem claim_C2_drop_policy :
    (∀ (role nm vl : String) (cs : List RawNode) (pfx : String) (i : Nat),
      simplifyNode (.node role nm vl cs) pfx i = none ↔
        (role = "" ∧ nm = "" ∧ role ∉ LAYOUT_ROLES)) ∧
    (∀ (c : RawNode) (cs : List RawNode) (pfx : String) (i : Nat),
      simplifyNode c pfx i = none →
        simplifyChildren (c :: cs) pfx i = simplifyChildren cs pfx (i + 1)) := by
  constructor
  · intro role nm vl cs pfx i
    simp only [simplifyNode]
    split
    case isTrue hcond =>
      simp only [Bool.and_eq_true, beq_iff_eq, Bool.not_eq_true'] at hcond
      refine iff_of_true rfl ⟨hcond.1.1, hcond.1.2, ?_⟩
      intro hmem
      have : LAYOUT_ROLES.contains role = true := List.elem_iff.mpr hmem
      rw [this] at hcond
      exact Bool.noConfusion hcond.2
    case isFalse hcond =>
      refine iff_of_false (by simp) ?_
      rintro ⟨h1, h2, h3⟩
      apply hcond
      rw [h1, h2]
      decide
  · intro c cs pfx i h
    simp only [simplifyChildren, h]

/-- Witness for C2 (amended): dropping the empty node at raw index 0 leaves
the surviving sibling list to be computed from raw index 1. -/
theorem claim_C2_drop_policy_witness :
    simplifyChildren
        [RawNode.node "" "" "" [], RawNode.node "button" "b" "" []] "s1e1" 0 =
      simplifyChildren [RawNode.node "button" "b" "" []] "s1e1" 1 :=
  claim_C2_drop_policy.2 (.node "" "" "" []) [.node "button" "b" "" []]
    "s1e1" 0 rfl

/-- C3 counterexample: the retained child of the root gets the path-chained
id s1e1e1, not the flat encode(frame, snapshot, rawPosition + 1) = s1e1 the
claim requires, and that chained id is not even parseable by the flat
reference grammar. -/
theorem claim_C3_counterexample :
    simplifyNode (.node "WebArea" "Doc" "" [.node "button" "b" "" []]) "s1" 0 =
      some (.mk "s1e1" "WebArea" "Doc" ""
        [.mk "s1e1e1" "button" "b" "" []]) ∧
    ("s1e1e1" == "s1" ++ "e" ++ toString (0 + 1)) = false ∧
    parseElementRefId "s1e1e1" =
      .error "Invalid element reference ID format: s1e1e1" :=
  ⟨rfl, by decide, rfl⟩

/-- C3 (amended): a retained node's id is its parent prefix ++ "e" ++
(raw index + 1), and its children are simplified with the node's own id as
their prefix — ids are path-chained, not flat; the raw index still advances
across dropped siblings, so dropping a sibling does not shift the ids of
its neighbours. -/
theorem claim_C3_id_assignment :
    (∀ (n : RawNode) (pfx : String) (i : Nat) (s : SimpNode),
      simplifyNode n pfx i = some s →
      s.id = pfx ++ "e" ++ toString (i + 1) ∧
      s.children =
        simplifyChildren n.children (pfx ++ "e" ++ toString (i + 1)) 0) ∧
    (∀ (c : RawNode) (cs : List RawNode) (pfx : String) (i : Nat),
      simplifyNode c pfx i = none →
        simplifyChildren (c :: cs) pfx i = simplifyChildren cs pfx (i + 1)) ∧
    (∀ (c : RawNode) (cs : List RawNode) (pfx : String) (i : Nat) (s : SimpNode),
      simplifyNode c pfx i = some s →
        simplifyChildren (c :: cs) pfx i = s :: simplifyChildren cs pfx (i + 1)) := by
  refine ⟨?_, ?_, ?_⟩
  · intro n pfx i s h
    cases n with
    | node role nm vl cs =>
      simp only [simplifyNode] at h
      split at h
      case isTrue => exact absurd h (by simp)
      case isFalse =>
        simp only [Option.some.injEq] at h
        subst h
        exact ⟨rfl, rfl⟩
  · intro c cs pfx i h
    simp only [simplifyChildren, h]
  · intro c cs pfx i s h
    simp only [simplifyChildren, h]

/-- Witness for C3 (amended): the id and children prefix of the concrete
retained root at prefix s1, raw index 0. -/
theorem claim_C3_id_assignment_witness :
    SimpNode.id (SimpNode.mk "s1e1" "WebArea" "Doc" ""
        [SimpNode.mk "s1e1e1" "button" "b" "" []]) =
      "s1" ++ "e" ++ toString (0 + 1) :=
  (claim_C3_id_assignment.1
    (.node "WebArea" "Doc" "" [.node "button" "b" "" []]) "s1" 0
    (.mk "s1e1" "WebArea" "Doc" "" [.mk "s1e1e1" "button" "b" "" []]) rfl).1

/-- C9: serializing a null or undefined tree, or the empty object (which
has no role and no name, hence a fully dropped root), yields the empty
string with no error, for every behaviour of the yaml dump collaborator. -/
theorem claim_C9_empty_serialization :
    ∀ (dump : SimpNode → Except String String) (framePfx : String),
      formatAccessibilityTreeToYaml dump none framePfx = .ok "" ∧
      formatAccessibilityTreeToYaml dump (some (.node "" "" "" []))
        framePfx = .ok "" := by
  intro dump framePfx
  exact ⟨rfl, rfl⟩

/-! ## Claims about the element locator -/

/-- C10: findElementByRefId never depends on the reference ID beyond its
null guard — any two non-empty reference strings give the same result on
every tree and role hint. -/
theorem claim_C10_refid_independent :
    ∀ (tree : Option RawNode) (r1 r2 targetRole : String),
      r1 ≠ "" → r2 ≠ "" →
      findElementByRefId tree r1 targetRole =
        findElementByRefId tree r2 targetRole := by
  intro tree r1 r2 targetRole h1 h2
  cases tree with
  | none => rfl
  | some t =>
    have e1 : (r1 == "") = false := by simpa using h1
    have e2 : (r2 == "") = false := by simpa using h2
    simp [findElementByRefId, e1, e2]

/-- Witness for C10: two different non-empty reference IDs resolve to the
same element on a concrete tree. -/
theorem claim_C10_refid_independent_witness :
    findElementByRefId (some (.node "button" "x" "" [])) "s1e1" "button" =
      findElementByRefId (some (.node "button" "x" "" [])) "f9s9e9" "button" :=
  claim_C10_refid_independent _ "s1e1" "f9s9e9" "button"
    (by decide) (by decide)

/-! ## Pre-order characterization of the traverse closure -/

/-- Node predicate effectively applied by one traverse call: role match when
the targetRole is truthy, interactivity when it is falsy. -/
def travPred (targetRole : String) (n : RawNode) : Bool :=
  if targetRole != "" then strToLower n.role == strToLower targetRole
  else isInteractiveElement n

mutual
theorem traverseNode_eq_find (tr : String) (n : RawNode) :
    traverseNode tr n = (preorder n).find? (travPred tr) := by
  cases n with
  | node role nm vl cs =>
    rw [preorder, List.find?_cons]
    by_cases htr : tr = ""
    · subst htr
      simp only [traverseNode, travPred, RawNode.role]
      simp only [bne_self_eq_false, Bool.false_and, Bool.false_eq_true,
        if_false, beq_self_eq_true, Bool.true_and, if_neg (by simp : ¬ false = true)]
      split
      next h => simp [h]
      next h =>
        simp only [Bool.not_eq_true] at h
        simp [h, traverseChildren_eq_find "" cs]
    · have htrb : (tr != "") = true := by simpa using htr
      simp only [traverseNode, travPred, RawNode.role, htrb, Bool.true_and,
        Bool.false_and]
      have htrb2 : (tr == "") = false := by simpa using htr
      simp only [htrb2, Bool.false_and]
      split
      next h => simp [h]
      next h =>
        simp only [Bool.not_eq_true] at h
        simp [h, traverseChildren_eq_find tr cs]

theorem traverseChildren_eq_find (tr : String) (cs : List RawNode) :
    traverseChildren tr cs = (preorderList cs).find? (travPred tr) := by
  cases cs with
  | nil => rfl
  | cons c rest =>
    rw [preorderList, List.find?_append, traverseChildren,
      traverseNode_eq_find tr c, traverseChildren_eq_find tr rest]
    cases (preorder c).find? (travPred tr) <;> simp [Option.or]
end

/-- C4: with a truthy role hint, resolution returns the first pre-order
node whose role equals the hint case-insensitively; failing that, the
first pre-order node whose role is in the fixed interactive-role set;
failing that, none. -/
theorem claim_C4_matching_strategy :
    ∀ (tree : RawNode) (refId roleHint : String),
      refId ≠ "" → roleHint ≠ "" →
      resolveElement tree refId roleHint =
        (match (preorder tree).find?
            (fun n => strToLower n.role == strToLower roleHint) with
        | some el => some el
        | none => (preorder tree).find? isInteractiveElement) := by
  intro tree refId roleHint hr hh
  have er : (refId == "") = false := by simpa using hr
  have eh : travPred roleHint =
      fun n => strToLower n.role == strToLower roleHint := by
    funext n
    simp [travPred, hh]
  have e0 : travPred "" = isInteractiveElement := by
    funext n
    simp [travPred]
  simp only [resolveElement, findElementByRefId, er, Bool.false_eq_true,
    if_false, traverseNode_eq_find, eh, e0]

/-- Witness for C4: on a concrete tree holding a heading and a button, the
hint "heading" selects the heading node. -/
theorem claim_C4_matching_strategy_witness :
    resolveElement
        (.node "RootWebArea" "" ""
          [.node "heading" "Title" "" [], .node "button" "Click Me" "" []])
        "s1e2" "heading" =
      some (.node "heading" "Title" "" []) := by
  rw [claim_C4_matching_strategy
    (.node "RootWebArea" "" ""
      [.node "heading" "Title" "" [], .node "button" "Click Me" "" []])
    "s1e2" "heading" (by decide) (by decide)]
  rfl

/-- C7 counterexample: the empty string is rejected by the reference
grammar (decode on it throws), yet findElementInPage returns null for it —
the falsy-refId guard runs before decode, so this malformed ID is
converted into a null result rather than propagated. -/
theorem claim_C7_counterexample :
    parseElementRefId "" = .error "Invalid element reference ID format: " ∧
    findElementInPage (some ⟨[⟨0, .ok none⟩], ⟨0, .ok none⟩⟩) "" = .ok none :=
  ⟨rfl, rfl⟩

/-- C7 (amended): for every non-empty string rejected by the reference
grammar, the decode failure propagates out of findElementInPage unchanged;
it is neither swallowed nor converted into a null result. -/
theorem claim_C7_error_propagation :
    (∀ (pg : Page) (s e : String),
      s ≠ "" → parseElementRefId s = .error e →
      findElementInPage (some pg) s = .error e) ∧
    (∀ (pg : Page) (s : String),
      s ≠ "" → ¬ (isFSE s.data ∨ isSE s.data) →
      findElementInPage (some pg) s =
        .error ("Invalid element reference ID format: " ++ s)) := by
  have base : ∀ (pg : Page) (s e : String),
      s ≠ "" → parseElementRefId s = .error e →
      findElementInPage (some pg) s = .error e := by
    intro pg s e hs hp
    have es : (s == "") = false := by simpa using hs
    simp [findElementInPage, es, hp]
  exact ⟨base, fun pg s hs hno =>
    base pg s _ hs (parseElementRefId_error_of_no_match hno)⟩

/-- Witness for C7 (amended): the concrete malformed ID "invalid"
propagates its decode error through findElementInPage. -/
theorem claim_C7_error_propagation_witness :
    findElementInPage (some ⟨[⟨0, .ok none⟩], ⟨0, .ok none⟩⟩) "invalid" =
      .error "Invalid element reference ID format: invalid" :=
  claim_C7_error_propagation.1 ⟨[⟨0, .ok none⟩], ⟨0, .ok none⟩⟩ "invalid"
    _ (by decide) rfl

/-! ## Claims about frame selection and batch capture -/

/-- Concrete page with exactly one frame whose tree holds a button. -/
def testButtonTree : RawNode :=
  .node "RootWebArea" "" "" [.node "button" "Test Button" "" []]

def testMainFrame : Frame := ⟨0, .ok (some testButtonTree)⟩

def testOnePage : Page := ⟨[testMainFrame], testMainFrame⟩

/-- C1 counterexample: resolving f1s1e1 on a page that currently has
exactly one frame does not fail with FrameNotFound (no such error exists
in the code): findElementInPage silently falls back to the main frame and
returns the button found there. -/
theorem claim_C1_counterexample :
    testOnePage.frames.length = 1 ∧
    findElementInPage (some testOnePage) "f1s1e1" =
      .ok (some (testMainFrame, .node "button" "Test Button" "" [])) :=
  ⟨rfl, rfl⟩

/-- C1 (amended): when the decoded frameIndex is at least the current
frame count, findElementInPage silently falls back to the main frame —
the result is exactly the result of searching the main frame, and no
FrameNotFound failure is ever produced. -/
theorem claim_C1_frame_fallback :
    ∀ (pg : Page) (s : String) (fi si ei : Nat),
      s ≠ "" →
      parseElementRefId s = .ok ⟨some fi, si, ei⟩ →
      pg.frames.length ≤ fi →
      findElementInPage (some pg) s = .ok (searchFrameTree pg.mainFrame s) := by
  intro pg s fi si ei hs hp hlen
  have es : (s == "") = false := by simpa using hs
  simp [findElementInPage, es, hp, List.getElem?_eq_none hlen]

/-- Witness for C1 (amended): the out-of-range reference f1s1e1 on the
one-frame page resolves against the main frame. -/
theorem claim_C1_frame_fallback_witness :
    findElementInPage (some testOnePage) "f1s1e1" =
      .ok (searchFrameTree testOnePage.mainFrame "f1s1e1") :=
  claim_C1_frame_fallback testOnePage "f1s1e1" 1 1 1
    (by decide) rfl (by decide)

theorem settleInto_length {α : Type} (tasks : List α) :
    ∀ (sched : List Nat) (acc : List (Option α)),
      (settleInto tasks sched acc).length = acc.length := by
  intro sched
  induction sched with
  | nil => intro acc; rfl
  | cons i rest ih =>
    intro acc
    simp only [settleInto]
    split
    · rw [ih, List.length_set]
    · exact ih acc

theorem settleInto_getElem?_not_mem {α : Type} (tasks : List α) :
    ∀ (sched : List Nat) (acc : List (Option α)) (j : Nat), j ∉ sched →
      (settleInto tasks sched acc)[j]? = acc[j]? := by
  intro sched
  induction sched with
  | nil => intro acc j _; rfl
  | cons i rest ih =>
    intro acc j hj
    have hji : i ≠ j := fun h => hj (h ▸ List.mem_cons_self i rest)
    have hjr : j ∉ rest := fun h => hj (List.mem_cons_of_mem i h)
    simp only [settleInto]
    split
    · rw [ih _ _ hjr, List.getElem?_set_ne hji]
    · exact ih _ _ hjr

theorem settleInto_getElem?_mem {α : Type} (tasks : List α) :
    ∀ (sched : List Nat) (acc : List (Option α)) (j : Nat),
      j ∈ sched → j < tasks.length → acc.length = tasks.length →
      (settleInto tasks sched acc)[j]? = (tasks[j]?).map some := by
  intro sched
  induction sched with
  | nil => intro acc j hj _ _; exact absurd hj (List.not_mem_nil j)
  | cons i rest ih =>
    intro acc j hj hjt hlen
    by_cases hjr : j ∈ rest
    · simp only [settleInto]
      split
      · exact ih _ j hjr hjt (by rw [List.length_set]; exact hlen)
      · exact ih _ j hjr hjt hlen
    · have hji : j = i := by
        rcases List.mem_cons.mp hj with h | h
        · exact h
        · exact absurd h hjr
      subst hji
      have htj : tasks[j]? = some tasks[j] := List.getElem?_eq_getElem hjt
      simp only [settleInto, htj]
      rw [settleInto_getElem?_not_mem tasks rest _ j hjr]
      rw [List.getElem?_set]
      simp [hlen, hjt, htj]

theorem allSettled_of_perm {α : Type} (tasks : List α) (sched : List Nat)
    (hperm : sched.Perm (List.range tasks.length)) :
    allSettled tasks sched = tasks.map some := by
  apply List.ext_getElem?
  intro j
  by_cases hj : j < tasks.length
  · have hmem : j ∈ sched := hperm.mem_iff.mpr (List.mem_range.mpr hj)
    rw [allSettled, settleInto_getElem?_mem tasks sched _ j hmem hj
      (by rw [List.length_replicate])]
    rw [List.getElem?_map]
  · have hj2 : tasks.length ≤ j := by omega
    rw [List.getElem?_eq_none, List.getElem?_eq_none]
    · rw [List.length_map]; exact hj2
    · rw [allSettled, settleInto_length, List.length_replicate]; exact hj2

theorem frameTrees_postprocess (l : List Frame) :
    ((((l.map fun frame =>
            frame.snapshot.map fun tree => (frame, tree)).map some).filterMap
          id).filterMap fun r =>
        match r with
        | .ok v => some v
        | .error _ => none).filterMap
      (fun ft =>
        match ft.2 with
        | some tree => some (ft.1, tree)
        | none => none) =
      l.filterMap fun f =>
        match f.snapshot with
        | .ok (some t) => some (f, t)
        | .ok none => none
        | .error _ => none := by
  induction l with
  | nil => rfl
  | cons f fs ih =>
    simp only [List.map_cons, List.filterMap_cons]
    rcases hs : f.snapshot with e | topt
    · simpa [hs, Except.map] using ih
    · cases topt
      · simpa [hs, Except.map] using ih
      · simpa [hs, Except.map] using ih

/-- C8: batch capture settles every per-frame snapshot, drops the frames
whose capture failed or returned a null tree instead of failing the whole
batch, and returns the surviving pairs in frame-enumeration order,
independent of the completion order. -/
theorem claim_C8_batch_capture :
    ∀ (pg : Page) (sched : List Nat),
      sched.Perm (List.range pg.frames.length) →
      getAllFrameTrees (some pg) sched =
        pg.frames.filterMap fun f =>
          match f.snapshot with
          | .ok (some t) => some (f, t)
          | .ok none => none
          | .error _ => none := by
  intro pg sched hperm
  simp only [getAllFrameTrees]
  rw [allSettled_of_perm _ _ (by simpa using hperm)]
  exact frameTrees_postprocess pg.frames

/-- Concrete three-frame page for the C8 witness: one good frame, one
whose capture throws, one whose capture returns a null tree. -/
def wFrameA : Frame := ⟨0, .ok (some (.node "main" "x" "" []))⟩

def wFrameErr : Frame := ⟨1, .error "detached"⟩

def wFrameNull : Frame := ⟨2, .ok none⟩

def wPage : Page := ⟨[wFrameA, wFrameErr, wFrameNull], wFrameA⟩

/-- Witness for C8: with completion order 2, 0, 1, only the good frame
survives and the result is in frame order. -/
theorem claim_C8_batch_capture_witness :
    getAllFrameTrees (some wPage) [2, 0, 1] =
      [(wFrameA, .node "main" "x" "" [])] := by
  rw [claim_C8_batch_capture wPage [2, 0, 1] (by decide)]
  rfl
